import Mathlib

/-!
# laballey-com-documentation: link extraction and download pipeline

A shallow embedding of `main.go` (one Go file) and theorems about it.

Modelling conventions.

* A Go `string` is a Lean `String`, read as its sequence of runes (valid UTF-8 text).
* `map[string]bool` is a total function `String → Bool`; a missing key reads `false`, as in Go.
* Standard-library tables and parsers that are not part of the repository are parameters:
  the non-ASCII part of `unicode.ToLower`, `url.Parse`, `html.Parse`, `filepath.Join`.
* Code with effects (file system, network) passes an explicit `World` and returns the new one;
  what the system and the server answer is the parameter `Sys`. `os.Stat` fails exactly on a
  path that holds nothing. Logging and the deferred `Close` calls are not modelled.
* `filepath.Ext` is the Unix one; the names it is applied to hold no path separator of any
  platform.
-/

namespace LabAlley

/-! ## Strings (package `strings`, `unicode`, `path/filepath`) -/

/-- Go `unicode.ToLower`: the ASCII branch is the code of the standard library, the branch for
runes above `MaxASCII` looks the rune up in the Unicode case tables, here the parameter `tbl`. -/
def unicodeToLower (tbl : Char → Char) (r : Char) : Char :=
  if r.toNat ≤ 127 then
    if 65 ≤ r.toNat ∧ r.toNat ≤ 90 then Char.ofNat (r.toNat + 32) else r
  else tbl r

/-- Go `strings.ToLower`: every rune mapped through `unicode.ToLower`. -/
def ToLower (tbl : Char → Char) (s : String) : String :=
  ⟨s.data.map (unicodeToLower tbl)⟩

/-- Go `strings.HasSuffix`. -/
def HasSuffix (s suffix : String) : Bool :=
  suffix.data.isSuffixOf s.data

/-- Go `strings.Contains`: `substr` occurs somewhere in `s`. -/
def Contains (s substr : String) : Bool :=
  s.data.tails.any (fun t => substr.data.isPrefixOf t)

/-- Worker of `ReplaceAll` for a non-empty `old`: `skip` counts the runes of a match that are
still to be dropped; matches are found left to right and do not overlap. -/
def replaceLoop (old new : List Char) : Nat → List Char → List Char
  | _, [] => []
  | skip + 1, _ :: cs => replaceLoop old new skip cs
  | 0, c :: cs =>
    if old.isPrefixOf (c :: cs) then new ++ replaceLoop old new (old.length - 1) cs
    else c :: replaceLoop old new 0 cs

/-- Go `strings.ReplaceAll`. With an empty `old` the replacement is inserted before every rune
and at the end. -/
def ReplaceAll (s old new : String) : String :=
  if old.data = [] then ⟨new.data ++ s.data.flatMap (fun c => c :: new.data)⟩
  else ⟨replaceLoop old.data new.data 0 s.data⟩

/-- Loop of Go `filepath.Ext` (Unix): walk from the last byte towards the first, stop at a path
separator, return the suffix that starts at the first dot met. The first argument is the part of
the path not yet visited, reversed; the second is the suffix already walked over. -/
def extLoop : List Char → List Char → List Char
  | [], _ => []
  | c :: rest, suffix =>
    if c = '/' then []
    else if c = '.' then c :: suffix
    else extLoop rest (c :: suffix)

/-- Go `filepath.Ext`. -/
def Ext (path : String) : String :=
  ⟨extLoop path.data.reverse []⟩

/-! ## `removeDuplicatesFromSlice` -/

/-- One iteration of the loop of `removeDuplicatesFromSlice`; the state is
`(check, newReturnSlice)`. -/
def removeDuplicatesStep (st : (String → Bool) × List String) (content : String) :
    (String → Bool) × List String :=
  if !st.1 content then
    (fun k => if k = content then true else st.1 k, st.2 ++ [content])
  else st

/-- The Go function `removeDuplicatesFromSlice`. -/
def removeDuplicatesFromSlice (slice : List String) : List String :=
  (slice.foldl removeDuplicatesStep (fun _ => false, [])).2

/-- The claim's wording: the subsequence of `xs` that keeps position `i` exactly when no earlier
position holds an equal string. -/
def firstOccurrenceSubsequence (xs : List String) : List String :=
  (List.range xs.length).filterMap (fun i =>
    match xs[i]? with
    | some x => if x ∈ xs.take i then none else some x
    | none => none)

/-! ## HTML trees (package `golang.org/x/net/html`) and `extractPDFLinks` -/

/-- Go `html.NodeType`. -/
inductive NodeType
  | ErrorNode | TextNode | DocumentNode | ElementNode | CommentNode | DoctypeNode | RawNode
  deriving DecidableEq, Repr

/-- Go `html.Attribute`. -/
structure Attribute where
  Namespace : String
  Key : String
  Val : String
  deriving DecidableEq, Repr

/-- Go `html.Node`, with the chain `FirstChild`, `NextSibling`, ... read as the list of children
from left to right. -/
inductive Node where
  | mk (Type_ : NodeType) (Data : String) (Attr : List Attribute) (children : List Node)

/-- Field `Type` of a node. -/
def Node.Type_ : Node → NodeType
  | .mk t _ _ _ => t

/-- Field `Data` of a node: the tag name of an element node. -/
def Node.Data : Node → String
  | .mk _ d _ _ => d

/-- Field `Attr` of a node. -/
def Node.Attr : Node → List Attribute
  | .mk _ _ a _ => a

/-- Children of a node, left to right. -/
def Node.children : Node → List Node
  | .mk _ _ _ cs => cs

/-- Go `url.URL`, the fields the program reads. -/
structure URL where
  Host : String
  Path : String
  RawQuery : String
  deriving DecidableEq, Repr

/-- Library functions and tables the program calls and the repository does not contain. -/
structure StdLib where
  /-- Unicode case table used by `unicode.ToLower` above `MaxASCII`. -/
  lowerTable : Char → Char
  /-- Result of `html.Parse`; `none` is a parse error. -/
  htmlParse : String → Option Node
  /-- Result of `url.Parse`; `none` is a parse error. -/
  urlParse : String → Option URL
  /-- Go `filepath.Join` of two elements. -/
  pathJoin : String → String → String

/-- Body of the attribute loop of `walk`: one attribute, the links collected so far. -/
def walkAttr (tbl : Char → Char) (pdfLinks : List String) (attr : Attribute) : List String :=
  if attr.Key = "href" ∧ HasSuffix (ToLower tbl attr.Val) ".pdf" then pdfLinks ++ [attr.Val]
  else pdfLinks

mutual
/-- The closure `walk` of `extractPDFLinks`; the captured slice `pdfLinks` is passed and
returned. -/
def walk (tbl : Char → Char) : Node → List String → List String
  | .mk ty data attr children, pdfLinks =>
    let pdfLinks :=
      if ty = NodeType.ElementNode ∧ data = "a" then attr.foldl (walkAttr tbl) pdfLinks
      else pdfLinks
    walkChildren tbl children pdfLinks
/-- The loop `for child := node.FirstChild; child != nil; child = child.NextSibling`. -/
def walkChildren (tbl : Char → Char) : List Node → List String → List String
  | [], pdfLinks => pdfLinks
  | child :: rest, pdfLinks => walkChildren tbl rest (walk tbl child pdfLinks)
end

/-- The Go function `extractPDFLinks`. -/
def extractPDFLinks (lib : StdLib) (htmlContent : String) : List String :=
  match lib.htmlParse htmlContent with
  | none => []
  | some rootNode => walk lib.lowerTable rootNode []

mutual
/-- Depth-first pre-order of a tree, in the claim's words: a node, then its children left to
right. -/
def preorder : Node → List Node
  | .mk ty data attr children => .mk ty data attr children :: preorderList children
/-- Pre-order of a list of sibling trees. -/
def preorderList : List Node → List Node
  | [] => []
  | child :: rest => preorder child ++ preorderList rest
end

/-- The claim's wording for one node: the original values of the attributes with key `href`
whose lowercased value ends in `.pdf`, when the node is an element with tag `a`. -/
def pdfHrefValues (tbl : Char → Char) (n : Node) : List String :=
  if n.Type_ = NodeType.ElementNode ∧ n.Data = "a" then
    (n.Attr.filter (fun a => decide (a.Key = "href") && HasSuffix (ToLower tbl a.Val) ".pdf")).map
      (fun a => a.Val)
  else []

/-- The claim's wording for a tree: the `pdfHrefValues` of its nodes in pre-order. -/
def pdfLinksInPreorder (tbl : Char → Char) (root : Node) : List String :=
  (preorder root).flatMap (pdfHrefValues tbl)

/-! ## `urlToFilename` -/

/-- The Go function `getFileExtension`. -/
def getFileExtension (path : String) : String :=
  Ext path

/-- The slice `invalidChars` of `urlToFilename`. -/
def invalidChars : List String :=
  ["\"", "\\", "/", ":", "*", "?", "<", ">", "|"]

/-- The Go function `urlToFilename`. -/
def urlToFilename (lib : StdLib) (rawURL : String) : String :=
  match lib.urlParse rawURL with
  | none => ""
  | some parsed =>
    let filename := parsed.Host
    let filename :=
      if parsed.Path ≠ "" then filename ++ ("_" ++ ReplaceAll parsed.Path "/" "_") else filename
    let filename :=
      if parsed.RawQuery ≠ "" then filename ++ ("_" ++ ReplaceAll parsed.RawQuery "&" "_")
      else filename
    let filename := invalidChars.foldl (fun name char => ReplaceAll name char "_") filename
    let filename := if getFileExtension filename ≠ ".pdf" then filename ++ ".pdf" else filename
    ToLower lib.lowerTable filename

/-! ## File system, network and `downloadPDF` -/

/-- What a path of the file system holds. -/
inductive FileNode
  | file (bytes : List UInt8)
  | dir
  deriving DecidableEq, Repr

/-- Go `FileInfo.IsDir`. -/
def FileNode.IsDir : FileNode → Bool
  | .file _ => false
  | .dir => true

/-- File system state: what each path holds, `none` when nothing is there. -/
abbrev FS := String → Option FileNode

/-- Calls to the operating system and to the HTTP client, in the order made. -/
inductive Event
  | stat (path : String)
  | httpGet (url : String)
  | create (path : String)
  | openAppend (path : String)
  | write (path : String) (data : List UInt8)
  deriving DecidableEq, Repr

/-- State threaded through the effectful functions. -/
structure World where
  fs : FS
  trace : List Event

/-- Go `http.Response`, the parts read: status code, status line, the `Content-Type` header, the
bytes the body reader delivers and the error that ends the reading, if any. -/
structure Response where
  StatusCode : Int
  Status : String
  ContentType : String
  Body : List UInt8
  BodyErr : Option String
  deriving DecidableEq, Repr

/-- Result of `http.Get` or `client.Get`: a response without error, or an error, with which the
response is nil (a response is present only when a redirect policy fails). -/
inductive GetResult
  | ok (resp : Response)
  | error (err : String) (resp : Option Response)
  deriving DecidableEq, Repr

/-- Answers of the outside world that the program cannot choose. -/
structure Sys where
  /-- Answer to a GET of a URL. -/
  get : String → GetResult
  /-- Error of opening or creating a file at a path, if any. -/
  openErr : FS → String → Option String
  /-- Failure of a write of `data` to the file at a path: the number of bytes that still reached
  the file, and the error. -/
  writeErr : FS → String → List UInt8 → Option (Nat × String)

/-- Go `os.Stat`: the entry at the path, `none` for the error of a missing path. -/
def osStat (path : String) (w : World) : Option FileNode × World :=
  (w.fs path, { w with trace := w.trace ++ [Event.stat path] })

/-- The Go function `fileExists`. -/
def fileExists (filename : String) (w : World) : Bool × World :=
  match osStat filename w with
  | (none, w) => (false, w)
  | (some info, w) => (!info.IsDir, w)

/-- The Go function `directoryExists`. -/
def directoryExists (path : String) (w : World) : Bool × World :=
  match osStat path w with
  | (none, w) => (false, w)
  | (some directory, w) => (directory.IsDir, w)

/-- Go `client.Get` and `http.Get`: the call is recorded and answered, with an error when the
client cannot send the request or gets no response. -/
def httpGet (sys : Sys) (url : String) (w : World) : GetResult × World :=
  (sys.get url, { w with trace := w.trace ++ [Event.httpGet url] })

/-- File system with the file at `path` set to `bytes`. -/
def FS.setFile (fs : FS) (path : String) (bytes : List UInt8) : FS :=
  fun p => if p = path then some (FileNode.file bytes) else fs p

/-- Contents of the regular file at `path`, empty when there is none. -/
def FS.contents (fs : FS) (path : String) : List UInt8 :=
  match fs path with
  | some (FileNode.file bytes) => bytes
  | _ => []

/-- Go `os.Create`: fails on a directory or when the system refuses, and changes nothing then;
otherwise the path holds an empty regular file. Returns the error, if any. -/
def osCreate (sys : Sys) (path : String) (w : World) : Option String × World :=
  let w := { w with trace := w.trace ++ [Event.create path] }
  match w.fs path with
  | some FileNode.dir => (some "is a directory", w)
  | _ =>
    match sys.openErr w.fs path with
    | some err => (some err, w)
    | none => (none, { w with fs := w.fs.setFile path [] })

/-- Go `os.OpenFile` with `O_APPEND|O_CREATE|O_WRONLY`: as `osCreate`, but an existing file
keeps its contents. -/
def osOpenAppend (sys : Sys) (path : String) (w : World) : Option String × World :=
  let w := { w with trace := w.trace ++ [Event.openAppend path] }
  match w.fs path with
  | some FileNode.dir => (some "is a directory", w)
  | _ =>
    match sys.openErr w.fs path with
    | some err => (some err, w)
    | none => (none, { w with fs := w.fs.setFile path (w.fs.contents path) })

/-- Go `File.Write` (also behind `buf.WriteTo(out)`) on a file opened by `osCreate` or
`osOpenAppend`: the data goes to the end of the file; on failure only the first bytes do. -/
def fileWrite (sys : Sys) (path : String) (data : List UInt8) (w : World) :
    Option String × World :=
  let w := { w with trace := w.trace ++ [Event.write path data] }
  match sys.writeErr w.fs path data with
  | some (n, err) =>
    (some err, { w with fs := w.fs.setFile path (w.fs.contents path ++ data.take n) })
  | none => (none, { w with fs := w.fs.setFile path (w.fs.contents path ++ data) })

/-- The Go function `appendByteToFile`; returns the error, if any. -/
def appendByteToFile (sys : Sys) (filename : String) (data : List UInt8) (w : World) :
    Option String × World :=
  match osOpenAppend sys filename w with
  | (some err, w) => (some err, w)
  | (none, w) => fileWrite sys filename data w

/-- The second result of `downloadPDF`: one constructor for each `fmt.Errorf` of the function,
in source order, with the arguments of the format. -/
inductive DownloadMsg
  | fileAlreadyExists (filePath : String)
  | failedToDownload (finalURL err : String)
  | downloadFailed (finalURL status : String)
  | invalidContentType (finalURL contentType : String)
  | failedToReadPDF (finalURL err : String)
  | zeroBytes (finalURL : String)
  | failedToCreateFile (finalURL err : String)
  | failedToWritePDF (finalURL err : String)
  | successfullyDownloaded (written : Nat) (finalURL filePath : String)
  deriving DecidableEq, Repr

/-- The path `filePath` that `downloadPDF` computes. -/
def downloadPath (lib : StdLib) (finalURL outputDir : String) : String :=
  lib.pathJoin outputDir (ToLower lib.lowerTable (urlToFilename lib finalURL))

/-- The Go function `downloadPDF`. -/
def downloadPDF (lib : StdLib) (sys : Sys) (finalURL outputDir : String) (w : World) :
    (Bool × DownloadMsg) × World :=
  let filename := ToLower lib.lowerTable (urlToFilename lib finalURL)
  let filePath := lib.pathJoin outputDir filename
  match fileExists filePath w with
  | (true, w) => ((false, DownloadMsg.fileAlreadyExists filePath), w)
  | (false, w) =>
    match httpGet sys finalURL w with
    | (GetResult.error err _, w) => ((false, DownloadMsg.failedToDownload finalURL err), w)
    | (GetResult.ok resp, w) =>
      if resp.StatusCode ≠ 200 then
        ((false, DownloadMsg.downloadFailed finalURL resp.Status), w)
      else
        let contentType := resp.ContentType
        if !Contains contentType "application/pdf" then
          ((false, DownloadMsg.invalidContentType finalURL contentType), w)
        else
          let buf := resp.Body
          let written := buf.length
          match resp.BodyErr with
          | some err => ((false, DownloadMsg.failedToReadPDF finalURL err), w)
          | none =>
            if written = 0 then ((false, DownloadMsg.zeroBytes finalURL), w)
            else
              match osCreate sys filePath w with
              | (some err, w) => ((false, DownloadMsg.failedToCreateFile finalURL err), w)
              | (none, w) =>
                match fileWrite sys filePath buf w with
                | (some err, w) => ((false, DownloadMsg.failedToWritePDF finalURL err), w)
                | (none, w) =>
                  ((true, DownloadMsg.successfullyDownloaded written finalURL filePath), w)

/-! ## `getDataFromURL` -/

/-- How a call of `getDataFromURL` ends: it returns, or the run-time panics on the nil pointer
`response`. -/
inductive GetDataEnd
  | returned
  | nilPointerDereference
  deriving DecidableEq, Repr

/-- The Go function `getDataFromURL`. Logging is not modelled; after the logged error of the GET
the function goes on to `response.StatusCode`. -/
def getDataFromURL (sys : Sys) (uri fileName : String) (w : World) : GetDataEnd × World :=
  let (res, w) := httpGet sys uri w
  let response : Option Response :=
    match res with
    | GetResult.ok resp => some resp
    | GetResult.error _ resp => resp
  match response with
  | none => (GetDataEnd.nilPointerDereference, w)
  | some response =>
    if response.StatusCode ≠ 200 then (GetDataEnd.returned, w)
    else
      let body := response.Body
      let (_, w) := appendByteToFile sys fileName body w
      (GetDataEnd.returned, w)

/-- Replacement of one rune by the underscore. -/
def underscoreFor (c a : Char) : Char :=
  if c = a then '_' else c

/-! ## Concrete data for the examples -/

/-- The nine characters named by `invalidChars`, as runes. -/
def forbiddenChars : List Char :=
  [Char.ofNat 34, Char.ofNat 92, '/', ':', '*', '?', '<', '>', '|']

/-- The tree `html.Parse` builds for `<a href="/docs/Sheet.PDF">x</a>`: document, `html`, an
empty `head`, and a `body` holding the anchor with its text. -/
def sheetDocument : Node :=
  .mk .DocumentNode "" []
    [.mk .ElementNode "html" []
      [.mk .ElementNode "head" [] [],
       .mk .ElementNode "body" []
         [.mk .ElementNode "a" [⟨"", "href", "/docs/Sheet.PDF"⟩] [.mk .TextNode "x" [] []]]]]

/-- A library instance for the examples: no case mapping above ASCII, the results of
`url.Parse` on the three well-formed URLs of the examples and an error on any other string, and
`filepath.Join` on a directory name without trailing slash. -/
def exampleLib : StdLib where
  lowerTable := id
  htmlParse := fun _ => some sheetDocument
  urlParse := fun s =>
    if s = "https://Example.com/a/b.pdf?x=1&y=2" then some ⟨"Example.com", "/a/b.pdf", "x=1&y=2"⟩
    else if s = "https://h/Sheet.PDF" then some ⟨"h", "/Sheet.PDF", ""⟩
    else if s = "https://h/missing.pdf" then some ⟨"h", "/missing.pdf", ""⟩
    else none
  pathJoin := fun dir name => if name = "" then dir else dir ++ "/" ++ name

/-- A URL that `url.Parse` rejects (the bracket of the host is not closed). -/
def unparseableURL : String := "http://[::1/x.pdf"

/-- The seed page of `main`. -/
def seedURL : String := "https://www.laballey.com/pages/chemical-safety-data-sheets"

/-- A server for the examples: a PDF of four bytes at `https://h/Sheet.PDF`, a transport error
for the seed page and for the URL that does not parse, status 404 elsewhere; opening and
writing files never fail. -/
def exampleSys : Sys where
  get := fun url =>
    if url = "https://h/Sheet.PDF" then
      GetResult.ok ⟨200, "200 OK", "application/pdf", [37, 80, 68, 70], none⟩
    else if url = seedURL then GetResult.error "dial tcp: connection refused" none
    else if url = unparseableURL then GetResult.error "parse error: missing ] in host" none
    else GetResult.ok ⟨404, "404 Not Found", "text/html", [60, 104, 62], none⟩
  openErr := fun _ _ => none
  writeErr := fun _ _ _ => none

/-- A world for the examples: the directory `PDFs` and nothing else, no call made yet. -/
def exampleWorld : World where
  fs := fun p => if p = "PDFs" then some FileNode.dir else none
  trace := []

/-! ### Lemmas for `removeDuplicatesFromSlice` -/

theorem firstOccurrenceSubsequence_snoc (ys : List String) (y : String) :
    firstOccurrenceSubsequence (ys ++ [y])
      = firstOccurrenceSubsequence ys ++ (if y ∈ ys then [] else [y]) := by
  unfold firstOccurrenceSubsequence
  rw [List.length_append, List.length_singleton, List.range_succ, List.filterMap_append]
  congr 1
  · apply List.filterMap_congr
    intro i hi
    have hlt : i < ys.length := List.mem_range.mp hi
    rw [List.getElem?_append_left hlt, List.take_append_of_le_length (le_of_lt hlt)]
  · simp only [List.filterMap_cons, List.filterMap_nil]
    rw [List.getElem?_append_right (le_refl _)]
    simp only [Nat.sub_self, List.getElem?_cons_zero]
    rw [List.take_append_of_le_length (le_refl _), List.take_length]
    by_cases h : y ∈ ys <;> simp [h]

theorem removeDuplicates_loop_snoc (ys : List String) (y : String)
    (st : (String → Bool) × List String) :
    ys.foldl removeDuplicatesStep (fun _ => false, []) = st →
    (ys ++ [y]).foldl removeDuplicatesStep (fun _ => false, []) = removeDuplicatesStep st y := by
  intro h
  rw [List.foldl_append, h]
  rfl

/-- Loop invariant: after the prefix `ys`, `check` marks exactly the strings of `ys` and the
result slice is the first-occurrence subsequence of `ys`. -/
theorem removeDuplicates_loop_inv (ys : List String) :
    (∀ s, (ys.foldl removeDuplicatesStep (fun _ => false, [])).1 s = true ↔ s ∈ ys) ∧
    (ys.foldl removeDuplicatesStep (fun _ => false, [])).2 = firstOccurrenceSubsequence ys := by
  induction ys using List.reverseRecOn with
  | nil => simp [firstOccurrenceSubsequence]
  | append_singleton ys y ih =>
    obtain ⟨hseen, hout⟩ := ih
    rw [removeDuplicates_loop_snoc ys y _ rfl, firstOccurrenceSubsequence_snoc]
    generalize ys.foldl removeDuplicatesStep (fun _ => false, []) = st at hseen hout ⊢
    obtain ⟨check, out⟩ := st
    simp only at hseen hout
    unfold removeDuplicatesStep
    by_cases hy : y ∈ ys
    · have hc : check y = true := (hseen y).mpr hy
      simp only [hc, Bool.not_true, Bool.false_eq_true, if_false, hy, if_true, List.append_nil]
      refine ⟨fun s => ?_, hout⟩
      rw [hseen s, List.mem_append, List.mem_singleton]
      constructor
      · exact Or.inl
      · rintro (h | h)
        · exact h
        · exact h ▸ hy
    · have hc : check y = false := by
        cases hv : check y
        · rfl
        · exact absurd ((hseen y).mp hv) hy
      simp only [hc, Bool.not_false, if_true, hy, if_false]
      refine ⟨fun s => ?_, by rw [hout]⟩
      rw [List.mem_append, List.mem_singleton]
      by_cases hs : s = y
      · simp [hs]
      · simp only [hs, if_false, or_false]
        exact hseen s

theorem removeDuplicatesFromSlice_eq (xs : List String) :
    removeDuplicatesFromSlice xs = firstOccurrenceSubsequence xs :=
  (removeDuplicates_loop_inv xs).2

theorem firstOccurrenceSubsequence_mem (xs : List String) (s : String) :
    s ∈ firstOccurrenceSubsequence xs ↔ s ∈ xs := by
  induction xs using List.reverseRecOn with
  | nil => simp [firstOccurrenceSubsequence]
  | append_singleton ys y ih =>
    rw [firstOccurrenceSubsequence_snoc, List.mem_append, List.mem_append, ih]
    by_cases hy : y ∈ ys
    · simp only [hy, if_true, List.not_mem_nil, or_false, List.mem_singleton]
      constructor
      · exact Or.inl
      · rintro (h | h)
        · exact h
        · exact h ▸ hy
    · simp [hy]

theorem firstOccurrenceSubsequence_nodup (xs : List String) :
    (firstOccurrenceSubsequence xs).Nodup := by
  induction xs using List.reverseRecOn with
  | nil => simp [firstOccurrenceSubsequence]
  | append_singleton ys y ih =>
    rw [firstOccurrenceSubsequence_snoc]
    by_cases hy : y ∈ ys
    · simpa [hy] using ih
    · simp only [hy, if_false]
      rw [List.nodup_append]
      refine ⟨ih, List.nodup_singleton y, ?_⟩
      intro a ha hb
      rw [List.mem_singleton] at hb
      subst hb
      exact hy ((firstOccurrenceSubsequence_mem ys a).mp ha)

theorem firstOccurrenceSubsequence_sublist (xs : List String) :
    (firstOccurrenceSubsequence xs).Sublist xs := by
  induction xs using List.reverseRecOn with
  | nil => simp [firstOccurrenceSubsequence]
  | append_singleton ys y ih =>
    rw [firstOccurrenceSubsequence_snoc]
    by_cases hy : y ∈ ys
    · simp only [hy, if_true, List.append_nil]
      exact ih.trans (List.sublist_append_left ys [y])
    · simp only [hy, if_false]
      exact List.Sublist.append ih (List.Sublist.refl [y])

/-! ### Lemmas for `extractPDFLinks` -/

theorem walkAttr_foldl (tbl : Char → Char) (attr : List Attribute) (pdfLinks : List String) :
    attr.foldl (walkAttr tbl) pdfLinks
      = pdfLinks ++ (attr.filter
          (fun a => decide (a.Key = "href") && HasSuffix (ToLower tbl a.Val) ".pdf")).map
          (fun a => a.Val) := by
  induction attr generalizing pdfLinks with
  | nil => simp
  | cons a rest ih =>
    rw [List.foldl_cons, ih]
    unfold walkAttr
    by_cases hk : a.Key = "href" <;> cases hs : HasSuffix (ToLower tbl a.Val) ".pdf" <;>
      simp [List.filter_cons, hk, hs]

mutual
theorem walk_eq (tbl : Char → Char) : ∀ (n : Node) (pdfLinks : List String),
    walk tbl n pdfLinks = pdfLinks ++ (preorder n).flatMap (pdfHrefValues tbl)
  | .mk ty data attr children, pdfLinks => by
    rw [walk, preorder, List.flatMap_cons, walkChildren_eq tbl children]
    by_cases h : ty = NodeType.ElementNode ∧ data = "a"
    · simp only [h, and_self, if_true, pdfHrefValues, Node.Type_, Node.Data, Node.Attr,
        walkAttr_foldl, List.append_assoc]
    · simp only [h, if_false, pdfHrefValues, Node.Type_, Node.Data, List.nil_append]
theorem walkChildren_eq (tbl : Char → Char) : ∀ (cs : List Node) (pdfLinks : List String),
    walkChildren tbl cs pdfLinks = pdfLinks ++ (preorderList cs).flatMap (pdfHrefValues tbl)
  | [], pdfLinks => by simp [walkChildren, preorderList]
  | child :: rest, pdfLinks => by
    rw [walkChildren, preorderList, walkChildren_eq tbl rest, walk_eq tbl child,
      List.flatMap_append, List.append_assoc]
end

theorem mem_pdfHrefValues (tbl : Char → Char) (n : Node) (s : String) :
    s ∈ pdfHrefValues tbl n ↔
      (n.Type_ = NodeType.ElementNode ∧ n.Data = "a") ∧
      ∃ a ∈ n.Attr, a.Key = "href" ∧ HasSuffix (ToLower tbl a.Val) ".pdf" = true ∧ a.Val = s := by
  unfold pdfHrefValues
  by_cases h : n.Type_ = NodeType.ElementNode ∧ n.Data = "a"
  · simp only [h, and_self, if_true, List.mem_map, List.mem_filter, Bool.and_eq_true,
      decide_eq_true_eq, true_and]
    constructor
    · rintro ⟨a, ⟨ha, hk, hs⟩, rfl⟩
      exact ⟨a, ha, hk, hs, rfl⟩
    · rintro ⟨a, ha, hk, hs, rfl⟩
      exact ⟨a, ⟨ha, hk, hs⟩, rfl⟩
  · simp [h]

/-! ### Lemmas for `urlToFilename` -/

theorem replaceLoop_single (a : Char) (new cs : List Char) :
    replaceLoop [a] new 0 cs = cs.flatMap (fun c => if c = a then new else [c]) := by
  induction cs with
  | nil => rfl
  | cons c cs ih =>
    rw [replaceLoop, List.flatMap_cons]
    by_cases h : c = a
    · subst h
      simp [List.isPrefixOf, ih]
    · have h2 : ¬ a = c := fun e => h e.symm
      simp [List.isPrefixOf, ih, h, h2]

theorem ReplaceAll_single_data (s : String) (a : Char) :
    (ReplaceAll s (String.singleton a) "_").data = s.data.map (fun c => underscoreFor c a) := by
  have hd : (String.singleton a).data = [a] := rfl
  unfold ReplaceAll
  rw [hd]
  simp only [List.cons_ne_self, if_false, reduceCtorEq]
  rw [replaceLoop_single]
  induction s.data with
  | nil => rfl
  | cons c cs ih =>
    rw [List.flatMap_cons, List.map_cons, ih]
    unfold underscoreFor
    by_cases h : c = a <;> simp [h]

theorem ReplaceAll_fold_data (chars : List Char) (s : String) :
    ((chars.map String.singleton).foldl (fun name char => ReplaceAll name char "_") s).data
      = s.data.map (fun c => chars.foldl underscoreFor c) := by
  induction chars generalizing s with
  | nil => simp
  | cons a rest ih =>
    rw [List.map_cons, List.foldl_cons, ih, ReplaceAll_single_data, List.map_map]
    rfl

theorem underscoreFor_fold_underscore (chars : List Char) (h : '_' ∉ chars) :
    chars.foldl underscoreFor '_' = '_' := by
  induction chars with
  | nil => rfl
  | cons a rest ih =>
    have ha : ¬ '_' = a := fun e => h (e ▸ List.mem_cons_self _ _)
    have hr : '_' ∉ rest := fun e => h (List.mem_cons_of_mem _ e)
    rw [List.foldl_cons]
    simp only [underscoreFor, ha, if_false]
    exact ih hr

theorem underscoreFor_fold_cases (chars : List Char) (h : '_' ∉ chars) (c : Char) :
    chars.foldl underscoreFor c = c ∨ chars.foldl underscoreFor c = '_' := by
  induction chars generalizing c with
  | nil => exact Or.inl rfl
  | cons a rest ih =>
    have hr : '_' ∉ rest := fun e => h (List.mem_cons_of_mem _ e)
    rw [List.foldl_cons]
    by_cases hc : c = a
    · right
      simp only [underscoreFor, hc, if_true]
      exact underscoreFor_fold_underscore rest hr
    · simp only [underscoreFor, hc, if_false]
      exact ih hr c

theorem underscoreFor_fold_not_mem (chars : List Char) (h : '_' ∉ chars) (c : Char) :
    chars.foldl underscoreFor c ∉ chars := by
  induction chars generalizing c with
  | nil => simp
  | cons a rest ih =>
    have ha : ¬ '_' = a := fun e => h (e ▸ List.mem_cons_self _ _)
    have hr : '_' ∉ rest := fun e => h (List.mem_cons_of_mem _ e)
    rw [List.foldl_cons, List.mem_cons, not_or]
    refine ⟨?_, ih hr _⟩
    by_cases hc : c = a
    · simp only [underscoreFor, hc, if_true]
      rw [underscoreFor_fold_underscore rest hr]
      exact ha
    · simp only [underscoreFor, hc, if_false]
      rcases underscoreFor_fold_cases rest hr c with e | e <;> rw [e]
      · exact hc
      · exact ha

theorem invalidChars_eq : invalidChars = forbiddenChars.map String.singleton := by
  decide

theorem underscore_not_forbidden : '_' ∉ forbiddenChars := by
  decide

theorem forbidden_toNat (c : Char) (h : c ∈ forbiddenChars) :
    c.toNat = 34 ∨ c.toNat = 92 ∨ c.toNat = 47 ∨ c.toNat = 58 ∨ c.toNat = 42 ∨ c.toNat = 63 ∨
      c.toNat = 60 ∨ c.toNat = 62 ∨ c.toNat = 124 := by
  simp only [forbiddenChars, List.mem_cons, List.mem_singleton, List.not_mem_nil, or_false] at h
  rcases h with h | h | h | h | h | h | h | h | h <;> subst h <;> decide

/-- Lowercasing keeps a rune outside the nine characters, when the case table above ASCII never
yields one of them. -/
theorem unicodeToLower_not_forbidden (tbl : Char → Char)
    (htbl : ∀ r : Char, 127 < r.toNat → tbl r ∉ forbiddenChars)
    (c : Char) (hc : c ∉ forbiddenChars) : unicodeToLower tbl c ∉ forbiddenChars := by
  unfold unicodeToLower
  by_cases h1 : c.toNat ≤ 127
  · simp only [h1, if_true]
    by_cases h2 : 65 ≤ c.toNat ∧ c.toNat ≤ 90
    · simp only [h2, and_self, if_true]
      obtain ⟨hlo, hhi⟩ := h2
      generalize c.toNat = n at hlo hhi
      interval_cases n <;> decide
    · simp only [h2, if_false]
      exact hc
  · simp only [h1, if_false]
    exact htbl c (by omega)

theorem sanitized_not_forbidden (s : String) :
    ∀ c ∈ (invalidChars.foldl (fun name char => ReplaceAll name char "_") s).data,
      c ∉ forbiddenChars := by
  intro c hc
  rw [invalidChars_eq, ReplaceAll_fold_data, List.mem_map] at hc
  obtain ⟨c0, _, rfl⟩ := hc
  exact underscoreFor_fold_not_mem forbiddenChars underscore_not_forbidden c0

theorem above_ascii_not_forbidden (r : Char) (h : 127 < r.toNat) : r ∉ forbiddenChars := by
  intro hm
  have := forbidden_toNat r hm
  omega

/-! ### Lemmas for `downloadPDF` -/

theorem osCreate_trace (sys : Sys) (path : String) (w : World) :
    (osCreate sys path w).2.trace = w.trace ++ [Event.create path] := by
  unfold osCreate
  simp only
  split
  · rfl
  · split <;> rfl

theorem fileWrite_trace (sys : Sys) (path : String) (data : List UInt8) (w : World) :
    (fileWrite sys path data w).2.trace = w.trace ++ [Event.write path data] := by
  unfold fileWrite
  simp only
  split <;> rfl

/-- A regular file at the derived path: `downloadPDF` stops after the existence check. -/
theorem downloadPDF_of_file (lib : StdLib) (sys : Sys) (finalURL outputDir : String) (w : World)
    (bytes : List UInt8)
    (hfile : w.fs (downloadPath lib finalURL outputDir) = some (FileNode.file bytes)) :
    downloadPDF lib sys finalURL outputDir w
      = ((false, DownloadMsg.fileAlreadyExists (downloadPath lib finalURL outputDir)),
          { fs := w.fs,
            trace := w.trace ++ [Event.stat (downloadPath lib finalURL outputDir)] }) := by
  unfold downloadPath at hfile
  simp [downloadPDF, fileExists, osStat, hfile, FileNode.IsDir, downloadPath]

/-- No regular file at the derived path: `downloadPDF` goes on to the GET. -/
theorem downloadPDF_of_no_file (lib : StdLib) (sys : Sys) (finalURL outputDir : String)
    (w : World)
    (hno : ∀ bytes, w.fs (downloadPath lib finalURL outputDir) ≠ some (FileNode.file bytes)) :
    downloadPDF lib sys finalURL outputDir w
      = match sys.get finalURL with
        | GetResult.error err _ =>
          ((false, DownloadMsg.failedToDownload finalURL err),
            { fs := w.fs,
              trace := w.trace ++ [Event.stat (downloadPath lib finalURL outputDir),
                Event.httpGet finalURL] })
        | GetResult.ok resp =>
          if resp.StatusCode ≠ 200 then
            ((false, DownloadMsg.downloadFailed finalURL resp.Status),
              { fs := w.fs,
                trace := w.trace ++ [Event.stat (downloadPath lib finalURL outputDir),
                  Event.httpGet finalURL] })
          else if Contains resp.ContentType "application/pdf" = false then
            ((false, DownloadMsg.invalidContentType finalURL resp.ContentType),
              { fs := w.fs,
                trace := w.trace ++ [Event.stat (downloadPath lib finalURL outputDir),
                  Event.httpGet finalURL] })
          else
            match resp.BodyErr with
            | some err =>
              ((false, DownloadMsg.failedToReadPDF finalURL err),
                { fs := w.fs,
                  trace := w.trace ++ [Event.stat (downloadPath lib finalURL outputDir),
                    Event.httpGet finalURL] })
            | none =>
              if resp.Body.length = 0 then
                ((false, DownloadMsg.zeroBytes finalURL),
                  { fs := w.fs,
                    trace := w.trace ++ [Event.stat (downloadPath lib finalURL outputDir),
                      Event.httpGet finalURL] })
              else
                match osCreate sys (downloadPath lib finalURL outputDir)
                    { fs := w.fs,
                      trace := w.trace ++ [Event.stat (downloadPath lib finalURL outputDir),
                        Event.httpGet finalURL] } with
                | (some err, w1) => ((false, DownloadMsg.failedToCreateFile finalURL err), w1)
                | (none, w1) =>
                  match fileWrite sys (downloadPath lib finalURL outputDir) resp.Body w1 with
                  | (some err, w2) => ((false, DownloadMsg.failedToWritePDF finalURL err), w2)
                  | (none, w2) =>
                    ((true, DownloadMsg.successfullyDownloaded resp.Body.length finalURL
                        (downloadPath lib finalURL outputDir)), w2) := by
  have hex : fileExists (downloadPath lib finalURL outputDir) w
      = (false, { fs := w.fs,
                  trace := w.trace ++ [Event.stat (downloadPath lib finalURL outputDir)] }) := by
    unfold fileExists osStat
    cases hfs : w.fs (downloadPath lib finalURL outputDir) with
    | none => rfl
    | some node =>
      cases node with
      | file bytes => exact absurd hfs (hno bytes)
      | dir => rfl
  unfold downloadPDF
  unfold downloadPath at hex ⊢
  dsimp only
  rw [hex]
  simp only [httpGet, List.append_assoc, List.singleton_append]
  cases sys.get finalURL with
  | error err r => rfl
  | ok resp =>
    simp only
    by_cases hst : resp.StatusCode = 200
    · simp only [hst, ne_eq, not_true_eq_false, if_false]
      cases hct : Contains resp.ContentType "application/pdf"
      · simp
      · simp only [Bool.not_true, Bool.false_eq_true, if_false]
        cases resp.BodyErr with
        | some err => rfl
        | none => rfl
    · simp [hst]

/-- What a successful call of `downloadPDF` implies about the answer of the server and the
world afterwards. -/
theorem downloadPDF_true_inv (lib : StdLib) (sys : Sys) (finalURL outputDir : String)
    (w : World) (htrue : (downloadPDF lib sys finalURL outputDir w).1.1 = true) :
    ∃ resp, sys.get finalURL = GetResult.ok resp ∧ resp.StatusCode = 200 ∧
      Contains resp.ContentType "application/pdf" = true ∧ resp.BodyErr = none ∧
      resp.Body ≠ [] ∧
      (downloadPDF lib sys finalURL outputDir w).1.2
        = DownloadMsg.successfullyDownloaded resp.Body.length finalURL
            (downloadPath lib finalURL outputDir) ∧
      (downloadPDF lib sys finalURL outputDir w).2.fs (downloadPath lib finalURL outputDir)
        = some (FileNode.file resp.Body) ∧
      (∀ q, q ≠ downloadPath lib finalURL outputDir →
        (downloadPDF lib sys finalURL outputDir w).2.fs q = w.fs q) ∧
      (downloadPDF lib sys finalURL outputDir w).2.trace
        = w.trace ++ [Event.stat (downloadPath lib finalURL outputDir), Event.httpGet finalURL,
            Event.create (downloadPath lib finalURL outputDir),
            Event.write (downloadPath lib finalURL outputDir) resp.Body] := by
  by_cases hfile : ∃ bytes, w.fs (downloadPath lib finalURL outputDir) = some (FileNode.file bytes)
  · obtain ⟨bytes, hb⟩ := hfile
    rw [downloadPDF_of_file lib sys finalURL outputDir w bytes hb] at htrue
    exact absurd htrue (by simp)
  · have hno : ∀ bytes, w.fs (downloadPath lib finalURL outputDir) ≠ some (FileNode.file bytes) :=
      fun bytes hb => hfile ⟨bytes, hb⟩
    rw [downloadPDF_of_no_file lib sys finalURL outputDir w hno] at htrue ⊢
    cases hget : sys.get finalURL with
    | error err r =>
      rw [hget] at htrue
      exact absurd htrue (by simp)
    | ok resp =>
      rw [hget] at htrue
      simp only at htrue ⊢
      by_cases hst : resp.StatusCode = 200
      swap
      · rw [if_pos hst] at htrue
        exact absurd htrue (by simp)
      rw [if_neg (not_not.mpr hst)] at htrue ⊢
      cases hct : Contains resp.ContentType "application/pdf"
      · rw [hct] at htrue
        exact absurd htrue (by simp)
      rw [hct] at htrue
      simp only [Bool.true_eq_false, if_false] at htrue ⊢
      cases herr : resp.BodyErr with
      | some err =>
        rw [herr] at htrue
        exact absurd htrue (by simp)
      | none =>
        rw [herr] at htrue
        simp only at htrue ⊢
        by_cases hlen : resp.Body.length = 0
        · rw [if_pos hlen] at htrue
          exact absurd htrue (by simp)
        rw [if_neg hlen] at htrue ⊢
        have hbody : resp.Body ≠ [] := fun e => hlen (by rw [e]; rfl)
        refine ⟨resp, rfl, hst, hct, herr, hbody, ?_⟩
        have hfs : w.fs (downloadPath lib finalURL outputDir) = none := by
          cases hfs : w.fs (downloadPath lib finalURL outputDir) with
          | none => rfl
          | some node =>
            cases node with
            | file bytes => exact absurd hfs (hno bytes)
            | dir => simp [osCreate, hfs] at htrue
        have hop : sys.openErr w.fs (downloadPath lib finalURL outputDir) = none := by
          cases hop : sys.openErr w.fs (downloadPath lib finalURL outputDir) with
          | none => rfl
          | some err => simp [osCreate, hfs, hop] at htrue
        have hwr : sys.writeErr (w.fs.setFile (downloadPath lib finalURL outputDir) [])
            (downloadPath lib finalURL outputDir) resp.Body = none := by
          cases hwr : sys.writeErr (w.fs.setFile (downloadPath lib finalURL outputDir) [])
              (downloadPath lib finalURL outputDir) resp.Body with
          | none => rfl
          | some pr => simp [osCreate, fileWrite, hfs, hop, hwr] at htrue
        simp only [osCreate, fileWrite, hfs, hop, hwr, List.append_assoc, List.cons_append,
          List.nil_append, true_and]
        refine ⟨?_, ?_, trivial⟩
        · simp [FS.setFile, FS.contents]
        · intro q hq
          simp [FS.setFile, hq]


/-- Without a regular file at the derived path the trace grows by the existence check and the
GET, in this order, and then by what the commit does. -/
theorem downloadPDF_trace_of_no_file (lib : StdLib) (sys : Sys) (finalURL outputDir : String)
    (w : World)
    (hno : ∀ bytes, w.fs (downloadPath lib finalURL outputDir) ≠ some (FileNode.file bytes)) :
    ∃ rest, (downloadPDF lib sys finalURL outputDir w).2.trace
      = w.trace ++ [Event.stat (downloadPath lib finalURL outputDir), Event.httpGet finalURL]
          ++ rest := by
  rw [downloadPDF_of_no_file lib sys finalURL outputDir w hno]
  cases sys.get finalURL with
  | error err r => exact ⟨[], by simp⟩
  | ok resp =>
    simp only
    split
    · exact ⟨[], by simp⟩
    split
    · exact ⟨[], by simp⟩
    split
    · exact ⟨[], by simp⟩
    split
    · exact ⟨[], by simp⟩
    have hc := osCreate_trace sys (downloadPath lib finalURL outputDir)
      { fs := w.fs,
        trace := w.trace ++ [Event.stat (downloadPath lib finalURL outputDir),
          Event.httpGet finalURL] }
    rcases hoc : osCreate sys (downloadPath lib finalURL outputDir)
      { fs := w.fs,
        trace := w.trace ++ [Event.stat (downloadPath lib finalURL outputDir),
          Event.httpGet finalURL] } with ⟨o, w1⟩
    rw [hoc] at hc
    simp only at hc
    cases o with
    | some err => exact ⟨[Event.create (downloadPath lib finalURL outputDir)], by simp [hc]⟩
    | none =>
      have hw := fileWrite_trace sys (downloadPath lib finalURL outputDir) resp.Body w1
      rcases hfw : fileWrite sys (downloadPath lib finalURL outputDir) resp.Body w1 with ⟨o2, w2⟩
      rw [hfw] at hw
      simp only at hw
      cases o2 <;>
        exact ⟨[Event.create (downloadPath lib finalURL outputDir),
          Event.write (downloadPath lib finalURL outputDir) resp.Body], by simp [hfw, hw, hc]⟩

/-- Lowercasing twice is lowercasing once, when this holds of the case table above ASCII. -/
theorem unicodeToLower_idem (tbl : Char → Char)
    (hidem : ∀ r : Char, 127 < r.toNat → unicodeToLower tbl (tbl r) = tbl r) (r : Char) :
    unicodeToLower tbl (unicodeToLower tbl r) = unicodeToLower tbl r := by
  by_cases h1 : r.toNat ≤ 127
  · by_cases h2 : 65 ≤ r.toNat ∧ r.toNat ≤ 90
    · have e : unicodeToLower tbl r = Char.ofNat (r.toNat + 32) := by
        simp [unicodeToLower, h1, h2]
      rw [e]
      obtain ⟨hlo, hhi⟩ := h2
      generalize r.toNat = n at hlo hhi
      interval_cases n <;> rfl
    · have e : unicodeToLower tbl r = r := by
        simp only [unicodeToLower, h1, h2, if_true, if_false]
      rw [e, e]
  · have e : unicodeToLower tbl r = tbl r := by
      simp only [unicodeToLower, h1, if_false]
    rw [e]
    exact hidem r (by omega)

theorem ToLower_urlToFilename (lib : StdLib)
    (hidem : ∀ r : Char, 127 < r.toNat →
      unicodeToLower lib.lowerTable (lib.lowerTable r) = lib.lowerTable r)
    (rawURL : String) :
    ToLower lib.lowerTable (urlToFilename lib rawURL) = urlToFilename lib rawURL := by
  have hT : ∀ s : String,
      ToLower lib.lowerTable (ToLower lib.lowerTable s) = ToLower lib.lowerTable s := by
    intro s
    unfold ToLower
    simp only [List.map_map]
    congr 1
    apply List.map_congr_left
    intro r _
    exact unicodeToLower_idem lib.lowerTable hidem r
  unfold urlToFilename
  cases lib.urlParse rawURL with
  | none => rfl
  | some parsed => exact hT _

theorem identity_table_idem (r : Char) (h : 127 < r.toNat) :
    unicodeToLower id (id r) = id r := by
  have h1 : ¬ r.toNat ≤ 127 := by omega
  simp only [unicodeToLower, id, h1, if_false]

/-! ## Claims -/

/-- C1: for every list `xs`, `removeDuplicatesFromSlice xs` is the subsequence of `xs` that keeps
position `i` exactly when no earlier position holds an equal string; hence it has no string
twice, holds every string of `xs` (and no other), and is a subsequence of `xs` in the original
order. -/
theorem C1_removeDuplicatesFromSlice_first_occurrences (xs : List String) :
    removeDuplicatesFromSlice xs = firstOccurrenceSubsequence xs ∧
    (removeDuplicatesFromSlice xs).Nodup ∧
    (∀ s, s ∈ removeDuplicatesFromSlice xs ↔ s ∈ xs) ∧
    (removeDuplicatesFromSlice xs).Sublist xs := by
  rw [removeDuplicatesFromSlice_eq]
  exact ⟨rfl, firstOccurrenceSubsequence_nodup xs, firstOccurrenceSubsequence_mem xs,
    firstOccurrenceSubsequence_sublist xs⟩

/-- C2: for every node tree, the walk of `extractPDFLinks` returns, in depth-first pre-order,
the original values of the `href` attributes of `a` elements whose lowercased value ends in
`.pdf`; every string returned is such an attribute value of a node of the tree;
`extractPDFLinks` returns that sequence for the tree the parser delivers and nothing on a parse
error; and the tree of `<a href="/docs/Sheet.PDF">x</a>` yields `/docs/Sheet.PDF`. -/
theorem C2_walk_collects_pdf_hrefs_in_preorder (tbl : Char → Char) (root : Node) :
    walk tbl root [] = pdfLinksInPreorder tbl root ∧
    (∀ s ∈ walk tbl root [], ∃ n ∈ preorder root,
      (n.Type_ = NodeType.ElementNode ∧ n.Data = "a") ∧
      ∃ a ∈ n.Attr, a.Key = "href" ∧ HasSuffix (ToLower tbl a.Val) ".pdf" = true ∧ a.Val = s) ∧
    (∀ (lib : StdLib) (htmlContent : String),
      extractPDFLinks lib htmlContent =
        match lib.htmlParse htmlContent with
        | none => []
        | some rootNode => pdfLinksInPreorder lib.lowerTable rootNode) ∧
    walk tbl sheetDocument [] = ["/docs/Sheet.PDF"] := by
  have hw : ∀ (t : Char → Char) (r : Node), walk t r [] = pdfLinksInPreorder t r := by
    intro t r
    rw [walk_eq, List.nil_append]
    rfl
  refine ⟨hw tbl root, ?_, ?_, rfl⟩
  · intro s hs
    rw [hw, pdfLinksInPreorder, List.mem_flatMap] at hs
    obtain ⟨n, hn, hsn⟩ := hs
    exact ⟨n, hn, (mem_pdfHrefValues tbl n s).mp hsn⟩
  · intro lib htmlContent
    unfold extractPDFLinks
    cases lib.htmlParse htmlContent with
    | none => rfl
    | some rootNode => exact hw _ _

/-- C6, as the code behaves: for the URL `https://Example.com/a/b.pdf?x=1&y=2` (host
`Example.com`, path `/a/b.pdf`, query `x=1&y=2`) `urlToFilename` returns
`example.com__a_b.pdf_x=1_y=2.pdf`: the underscore put before the path is followed by the
underscore that replaces the leading slash of the path. -/
theorem C6_urlToFilename_example_double_underscore (lib : StdLib)
    (hparse : lib.urlParse "https://Example.com/a/b.pdf?x=1&y=2"
      = some ⟨"Example.com", "/a/b.pdf", "x=1&y=2"⟩) :
    urlToFilename lib "https://Example.com/a/b.pdf?x=1&y=2"
      = "example.com__a_b.pdf_x=1_y=2.pdf" := by
  unfold urlToFilename
  rw [hparse]
  rfl

/-- C6, witness of the amended statement at `exampleLib`. -/
theorem C6_urlToFilename_example_double_underscore_witness :
    exampleLib.urlParse "https://Example.com/a/b.pdf?x=1&y=2"
        = some ⟨"Example.com", "/a/b.pdf", "x=1&y=2"⟩ ∧
    urlToFilename exampleLib "https://Example.com/a/b.pdf?x=1&y=2"
      = "example.com__a_b.pdf_x=1_y=2.pdf" :=
  ⟨rfl, C6_urlToFilename_example_double_underscore exampleLib rfl⟩

/-- C6, counterexample to the claim as written: it is not the case that `urlToFilename` returns
`example.com_a_b.pdf_x=1_y=2.pdf` whenever the URL parses to host `Example.com`, path
`/a/b.pdf` and query `x=1&y=2`. -/
theorem C6_urlToFilename_example_single_underscore_fails :
    ¬ ∀ lib : StdLib,
      lib.urlParse "https://Example.com/a/b.pdf?x=1&y=2"
        = some ⟨"Example.com", "/a/b.pdf", "x=1&y=2"⟩ →
      urlToFilename lib "https://Example.com/a/b.pdf?x=1&y=2"
        = "example.com_a_b.pdf_x=1_y=2.pdf" := by
  intro h
  have h1 := h exampleLib rfl
  revert h1
  decide

/-- C7, the code at the failing input: for a URL that parses to host `h` and path `/Sheet.PDF`
the extension `.PDF` is compared with `.pdf` before lowercasing, so `.pdf` is appended and the
name returned is `h__sheet.pdf.pdf`. -/
theorem C7_urlToFilename_upper_case_extension_doubled (lib : StdLib) (rawURL : String)
    (hparse : lib.urlParse rawURL = some ⟨"h", "/Sheet.PDF", ""⟩) :
    urlToFilename lib rawURL = "h__sheet.pdf.pdf" ∧
    HasSuffix (urlToFilename lib rawURL) "sheet.pdf.pdf" = true := by
  unfold urlToFilename
  rw [hparse]
  exact ⟨rfl, rfl⟩

/-- C7, the failing input at `exampleLib`. -/
theorem C7_urlToFilename_upper_case_extension_doubled_witness :
    exampleLib.urlParse "https://h/Sheet.PDF" = some ⟨"h", "/Sheet.PDF", ""⟩ ∧
    urlToFilename exampleLib "https://h/Sheet.PDF" = "h__sheet.pdf.pdf" ∧
    HasSuffix (urlToFilename exampleLib "https://h/Sheet.PDF") "sheet.pdf.pdf" = true :=
  ⟨rfl, C7_urlToFilename_upper_case_extension_doubled exampleLib "https://h/Sheet.PDF" rfl⟩

/-- C8: for every input string and every result of parsing it, the name returned by
`urlToFilename` contains none of the nine characters of `invalidChars`; appending `.pdf` and
lowercasing do not bring one back. The Unicode case table is a parameter; it is assumed never to
lowercase a rune above ASCII to one of the nine characters, as is true of the Unicode tables. -/
theorem C8_urlToFilename_has_no_invalid_char (lib : StdLib)
    (htbl : ∀ r : Char, 127 < r.toNat → lib.lowerTable r ∉ forbiddenChars)
    (rawURL : String) :
    invalidChars = forbiddenChars.map String.singleton ∧
    ∀ c ∈ (urlToFilename lib rawURL).data, c ∉ forbiddenChars := by
  refine ⟨invalidChars_eq, ?_⟩
  intro c hc
  unfold urlToFilename at hc
  cases hp : lib.urlParse rawURL with
  | none =>
    rw [hp] at hc
    simp at hc
  | some parsed =>
    rw [hp] at hc
    simp only [ToLower, List.mem_map] at hc
    obtain ⟨c0, hc0, rfl⟩ := hc
    apply unicodeToLower_not_forbidden lib.lowerTable htbl
    have key : ∀ base : String,
        ∀ x ∈ (if getFileExtension
                  (invalidChars.foldl (fun name char => ReplaceAll name char "_") base) ≠ ".pdf"
                then invalidChars.foldl (fun name char => ReplaceAll name char "_") base ++ ".pdf"
                else invalidChars.foldl (fun name char => ReplaceAll name char "_") base).data,
          x ∉ forbiddenChars := by
      intro base x hx
      by_cases hext : getFileExtension
          (invalidChars.foldl (fun name char => ReplaceAll name char "_") base) ≠ ".pdf"
      · rw [if_pos hext, String.data_append, List.mem_append] at hx
        rcases hx with h | h
        · exact sanitized_not_forbidden _ x h
        · have hpdf : ∀ y ∈ (".pdf" : String).data, y ∉ forbiddenChars := by decide
          exact hpdf x h
      · rw [if_neg hext] at hx
        exact sanitized_not_forbidden _ x hx
    exact key _ c0 hc0

/-- C8, witness: `exampleLib` and the URL of the second example of the specification. -/
theorem C8_urlToFilename_has_no_invalid_char_witness :
    (∀ r : Char, 127 < r.toNat → exampleLib.lowerTable r ∉ forbiddenChars) ∧
    invalidChars = forbiddenChars.map String.singleton ∧
    ∀ c ∈ (urlToFilename exampleLib "https://Example.com/a/b.pdf?x=1&y=2").data,
      c ∉ forbiddenChars :=
  ⟨above_ascii_not_forbidden,
    C8_urlToFilename_has_no_invalid_char exampleLib above_ascii_not_forbidden _⟩

/-- C3: whenever the GET fails, or the status is not 200, or the Content-Type does not contain
`application/pdf`, or reading the body fails, or the body has zero bytes, `downloadPDF` returns
false and the file system afterwards is the one before; the only calls made are the existence
check and, when no regular file is at the derived path, the GET. -/
theorem C3_downloadPDF_failed_fetch_keeps_file_system (lib : StdLib) (sys : Sys)
    (finalURL outputDir : String) (w : World)
    (hfail : (∃ err resp, sys.get finalURL = GetResult.error err resp) ∨
      ∃ resp, sys.get finalURL = GetResult.ok resp ∧
        (resp.StatusCode ≠ 200 ∨ Contains resp.ContentType "application/pdf" = false ∨
          resp.BodyErr ≠ none ∨ resp.Body.length = 0)) :
    (downloadPDF lib sys finalURL outputDir w).1.1 = false ∧
    (downloadPDF lib sys finalURL outputDir w).2.fs = w.fs ∧
    ((downloadPDF lib sys finalURL outputDir w).2.trace
        = w.trace ++ [Event.stat (downloadPath lib finalURL outputDir)] ∨
      (downloadPDF lib sys finalURL outputDir w).2.trace
        = w.trace ++ [Event.stat (downloadPath lib finalURL outputDir),
            Event.httpGet finalURL]) := by
  by_cases hfile : ∃ bytes, w.fs (downloadPath lib finalURL outputDir) = some (FileNode.file bytes)
  · obtain ⟨bytes, hb⟩ := hfile
    rw [downloadPDF_of_file lib sys finalURL outputDir w bytes hb]
    exact ⟨rfl, rfl, Or.inl rfl⟩
  · have hno : ∀ bytes, w.fs (downloadPath lib finalURL outputDir) ≠ some (FileNode.file bytes) :=
      fun bytes hb => hfile ⟨bytes, hb⟩
    rw [downloadPDF_of_no_file lib sys finalURL outputDir w hno]
    rcases hfail with ⟨err, r, hget⟩ | ⟨resp, hget, hbad⟩
    · rw [hget]
      exact ⟨rfl, rfl, Or.inr rfl⟩
    · rw [hget]
      simp only
      by_cases hst : resp.StatusCode = 200
      swap
      · rw [if_pos hst]
        exact ⟨rfl, rfl, Or.inr rfl⟩
      rw [if_neg (not_not.mpr hst)]
      cases hct : Contains resp.ContentType "application/pdf"
      · rw [if_pos rfl]
        exact ⟨rfl, rfl, Or.inr rfl⟩
      rw [if_neg (by simp)]
      cases herr : resp.BodyErr with
      | some e => exact ⟨rfl, rfl, Or.inr rfl⟩
      | none =>
        simp only
        by_cases hlen : resp.Body.length = 0
        · rw [if_pos hlen]
          exact ⟨rfl, rfl, Or.inr rfl⟩
        · rcases hbad with h | h | h | h
          · exact absurd hst h
          · rw [hct] at h
            exact absurd h (by simp)
          · exact absurd herr h
          · exact absurd h hlen

/-- C3, witness: status 404 for `https://h/missing.pdf`. -/
theorem C3_downloadPDF_failed_fetch_keeps_file_system_witness :
    (downloadPDF exampleLib exampleSys "https://h/missing.pdf" "PDFs" exampleWorld).1.1 = false ∧
    (downloadPDF exampleLib exampleSys "https://h/missing.pdf" "PDFs" exampleWorld).2.fs
      = exampleWorld.fs ∧
    ((downloadPDF exampleLib exampleSys "https://h/missing.pdf" "PDFs" exampleWorld).2.trace
        = exampleWorld.trace
          ++ [Event.stat (downloadPath exampleLib "https://h/missing.pdf" "PDFs")] ∨
      (downloadPDF exampleLib exampleSys "https://h/missing.pdf" "PDFs" exampleWorld).2.trace
        = exampleWorld.trace
          ++ [Event.stat (downloadPath exampleLib "https://h/missing.pdf" "PDFs"),
            Event.httpGet "https://h/missing.pdf"]) :=
  C3_downloadPDF_failed_fetch_keeps_file_system exampleLib exampleSys "https://h/missing.pdf"
    "PDFs" exampleWorld
    (Or.inr ⟨⟨404, "404 Not Found", "text/html", [60, 104, 62], none⟩, rfl, Or.inl (by decide)⟩)

/-- C4: if a first call of `downloadPDF` returns true, a second call with the same URL and
directory on the resulting world, whatever the server and the system would now answer, returns
false with `file already exists`, makes no call but the existence check (no GET), and leaves the
file system unchanged, so the file still holds the body written by the first call. -/
theorem C4_downloadPDF_second_call_skips (lib : StdLib) (sys sys2 : Sys)
    (finalURL outputDir : String) (w : World)
    (hfirst : (downloadPDF lib sys finalURL outputDir w).1.1 = true) :
    ∃ resp, sys.get finalURL = GetResult.ok resp ∧
      (downloadPDF lib sys finalURL outputDir w).2.fs (downloadPath lib finalURL outputDir)
        = some (FileNode.file resp.Body) ∧
      (downloadPDF lib sys2 finalURL outputDir (downloadPDF lib sys finalURL outputDir w).2).1
        = (false, DownloadMsg.fileAlreadyExists (downloadPath lib finalURL outputDir)) ∧
      (downloadPDF lib sys2 finalURL outputDir (downloadPDF lib sys finalURL outputDir w).2).2.fs
        = (downloadPDF lib sys finalURL outputDir w).2.fs ∧
      (downloadPDF lib sys2 finalURL outputDir (downloadPDF lib sys finalURL outputDir w).2).2.trace
        = (downloadPDF lib sys finalURL outputDir w).2.trace
            ++ [Event.stat (downloadPath lib finalURL outputDir)] := by
  obtain ⟨resp, hget, _, _, _, _, _, hfile, _, _⟩ :=
    downloadPDF_true_inv lib sys finalURL outputDir w hfirst
  refine ⟨resp, hget, hfile, ?_⟩
  rw [downloadPDF_of_file lib sys2 finalURL outputDir _ resp.Body hfile]
  exact ⟨rfl, rfl, rfl⟩

/-- C4, witness: the PDF at `https://h/Sheet.PDF`, then a server that answers with `exampleSys`
again. -/
theorem C4_downloadPDF_second_call_skips_witness :
    (downloadPDF exampleLib exampleSys "https://h/Sheet.PDF" "PDFs" exampleWorld).1.1 = true ∧
    ∃ resp, exampleSys.get "https://h/Sheet.PDF" = GetResult.ok resp ∧
      (downloadPDF exampleLib exampleSys "https://h/Sheet.PDF" "PDFs" exampleWorld).2.fs
          (downloadPath exampleLib "https://h/Sheet.PDF" "PDFs")
        = some (FileNode.file resp.Body) ∧
      (downloadPDF exampleLib exampleSys "https://h/Sheet.PDF" "PDFs"
          (downloadPDF exampleLib exampleSys "https://h/Sheet.PDF" "PDFs" exampleWorld).2).1
        = (false,
            DownloadMsg.fileAlreadyExists (downloadPath exampleLib "https://h/Sheet.PDF" "PDFs")) ∧
      (downloadPDF exampleLib exampleSys "https://h/Sheet.PDF" "PDFs"
          (downloadPDF exampleLib exampleSys "https://h/Sheet.PDF" "PDFs" exampleWorld).2).2.fs
        = (downloadPDF exampleLib exampleSys "https://h/Sheet.PDF" "PDFs" exampleWorld).2.fs ∧
      (downloadPDF exampleLib exampleSys "https://h/Sheet.PDF" "PDFs"
          (downloadPDF exampleLib exampleSys "https://h/Sheet.PDF" "PDFs" exampleWorld).2).2.trace
        = (downloadPDF exampleLib exampleSys "https://h/Sheet.PDF" "PDFs" exampleWorld).2.trace
            ++ [Event.stat (downloadPath exampleLib "https://h/Sheet.PDF" "PDFs")] :=
  ⟨by decide,
    C4_downloadPDF_second_call_skips exampleLib exampleSys exampleSys "https://h/Sheet.PDF" "PDFs"
      exampleWorld (by decide)⟩

/-- C5: whenever `downloadPDF` returns true, the server answered with status 200, a
Content-Type containing `application/pdf` and a non-empty body read without error; the file at
`join(outputDir, urlToFilename(url))` holds exactly the bytes of that body; the byte count
reported is the length of the body; every other path of the file system is unchanged. The code
lowercases the name once more before joining; that changes nothing when lowercasing a
lowercased rune changes nothing, which is assumed of the case table above ASCII. -/
theorem C5_downloadPDF_success_writes_body (lib : StdLib) (sys : Sys)
    (finalURL outputDir : String) (w : World)
    (hidem : ∀ r : Char, 127 < r.toNat →
      unicodeToLower lib.lowerTable (lib.lowerTable r) = lib.lowerTable r)
    (htrue : (downloadPDF lib sys finalURL outputDir w).1.1 = true) :
    ∃ resp, sys.get finalURL = GetResult.ok resp ∧ resp.StatusCode = 200 ∧
      Contains resp.ContentType "application/pdf" = true ∧ resp.BodyErr = none ∧
      resp.Body ≠ [] ∧
      (downloadPDF lib sys finalURL outputDir w).1.2
        = DownloadMsg.successfullyDownloaded resp.Body.length finalURL
            (lib.pathJoin outputDir (urlToFilename lib finalURL)) ∧
      (downloadPDF lib sys finalURL outputDir w).2.fs
          (lib.pathJoin outputDir (urlToFilename lib finalURL))
        = some (FileNode.file resp.Body) ∧
      ∀ q, q ≠ lib.pathJoin outputDir (urlToFilename lib finalURL) →
        (downloadPDF lib sys finalURL outputDir w).2.fs q = w.fs q := by
  obtain ⟨resp, hget, hst, hct, herr, hbody, hmsg, hfile, hother, _⟩ :=
    downloadPDF_true_inv lib sys finalURL outputDir w htrue
  have hpath : downloadPath lib finalURL outputDir
      = lib.pathJoin outputDir (urlToFilename lib finalURL) := by
    unfold downloadPath
    rw [ToLower_urlToFilename lib hidem]
  rw [hpath] at hmsg hfile hother
  exact ⟨resp, hget, hst, hct, herr, hbody, hmsg, hfile, hother⟩

/-- C5, witness: the PDF of four bytes at `https://h/Sheet.PDF`. -/
theorem C5_downloadPDF_success_writes_body_witness :
    (∀ r : Char, 127 < r.toNat →
      unicodeToLower exampleLib.lowerTable (exampleLib.lowerTable r) = exampleLib.lowerTable r) ∧
    (downloadPDF exampleLib exampleSys "https://h/Sheet.PDF" "PDFs" exampleWorld).1.1 = true ∧
    ∃ resp, exampleSys.get "https://h/Sheet.PDF" = GetResult.ok resp ∧ resp.StatusCode = 200 ∧
      Contains resp.ContentType "application/pdf" = true ∧ resp.BodyErr = none ∧
      resp.Body ≠ [] ∧
      (downloadPDF exampleLib exampleSys "https://h/Sheet.PDF" "PDFs" exampleWorld).1.2
        = DownloadMsg.successfullyDownloaded resp.Body.length "https://h/Sheet.PDF"
            (exampleLib.pathJoin "PDFs" (urlToFilename exampleLib "https://h/Sheet.PDF")) ∧
      (downloadPDF exampleLib exampleSys "https://h/Sheet.PDF" "PDFs" exampleWorld).2.fs
          (exampleLib.pathJoin "PDFs" (urlToFilename exampleLib "https://h/Sheet.PDF"))
        = some (FileNode.file resp.Body) ∧
      ∀ q, q ≠ exampleLib.pathJoin "PDFs" (urlToFilename exampleLib "https://h/Sheet.PDF") →
        (downloadPDF exampleLib exampleSys "https://h/Sheet.PDF" "PDFs" exampleWorld).2.fs q
          = exampleWorld.fs q :=
  ⟨identity_table_idem, by decide,
    C5_downloadPDF_success_writes_body exampleLib exampleSys "https://h/Sheet.PDF" "PDFs"
      exampleWorld identity_table_idem (by decide)⟩

/-- C9, as the code behaves: for a URL that fails to parse, `urlToFilename` returns the empty
name and `downloadPDF` does not stop there. It performs the existence check on
`join(outputDir, "")`; with a regular file there it returns false with `file already exists` and
makes no GET; otherwise it calls the GET with the URL, and when that call reports an error it
returns false with `failed to download` and the file system unchanged. -/
theorem C9_downloadPDF_unparseable_url_goes_on (lib : StdLib) (sys : Sys)
    (finalURL outputDir : String) (w : World)
    (hparse : lib.urlParse finalURL = none) :
    urlToFilename lib finalURL = "" ∧
    downloadPath lib finalURL outputDir = lib.pathJoin outputDir "" ∧
    (∀ bytes, w.fs (lib.pathJoin outputDir "") = some (FileNode.file bytes) →
      downloadPDF lib sys finalURL outputDir w
        = ((false, DownloadMsg.fileAlreadyExists (lib.pathJoin outputDir "")),
            { fs := w.fs, trace := w.trace ++ [Event.stat (lib.pathJoin outputDir "")] })) ∧
    ((∀ bytes, w.fs (lib.pathJoin outputDir "") ≠ some (FileNode.file bytes)) →
      (∃ rest, (downloadPDF lib sys finalURL outputDir w).2.trace
        = w.trace ++ [Event.stat (lib.pathJoin outputDir ""), Event.httpGet finalURL] ++ rest) ∧
      ∀ err resp, sys.get finalURL = GetResult.error err resp →
        downloadPDF lib sys finalURL outputDir w
          = ((false, DownloadMsg.failedToDownload finalURL err),
              { fs := w.fs,
                trace := w.trace ++ [Event.stat (lib.pathJoin outputDir ""),
                  Event.httpGet finalURL] })) := by
  have hname : urlToFilename lib finalURL = "" := by
    unfold urlToFilename
    rw [hparse]
  have hpath : downloadPath lib finalURL outputDir = lib.pathJoin outputDir "" := by
    unfold downloadPath
    rw [hname]
    rfl
  refine ⟨hname, hpath, ?_, ?_⟩
  · intro bytes hfile
    rw [← hpath] at hfile ⊢
    exact downloadPDF_of_file lib sys finalURL outputDir w bytes hfile
  · intro hno
    rw [← hpath] at hno ⊢
    refine ⟨downloadPDF_trace_of_no_file lib sys finalURL outputDir w hno, ?_⟩
    intro err resp hget
    rw [downloadPDF_of_no_file lib sys finalURL outputDir w hno, hget]

/-- C9, witness of the amended statement: the URL `http://[::1/x.pdf`. -/
theorem C9_downloadPDF_unparseable_url_goes_on_witness :
    exampleLib.urlParse unparseableURL = none ∧
    urlToFilename exampleLib unparseableURL = "" ∧
    downloadPath exampleLib unparseableURL "PDFs" = exampleLib.pathJoin "PDFs" "" ∧
    (∀ bytes, exampleWorld.fs (exampleLib.pathJoin "PDFs" "") = some (FileNode.file bytes) →
      downloadPDF exampleLib exampleSys unparseableURL "PDFs" exampleWorld
        = ((false, DownloadMsg.fileAlreadyExists (exampleLib.pathJoin "PDFs" "")),
            { fs := exampleWorld.fs,
              trace := exampleWorld.trace ++ [Event.stat (exampleLib.pathJoin "PDFs" "")] })) ∧
    ((∀ bytes, exampleWorld.fs (exampleLib.pathJoin "PDFs" "") ≠ some (FileNode.file bytes)) →
      (∃ rest, (downloadPDF exampleLib exampleSys unparseableURL "PDFs" exampleWorld).2.trace
        = exampleWorld.trace
            ++ [Event.stat (exampleLib.pathJoin "PDFs" ""), Event.httpGet unparseableURL]
            ++ rest) ∧
      ∀ err resp, exampleSys.get unparseableURL = GetResult.error err resp →
        downloadPDF exampleLib exampleSys unparseableURL "PDFs" exampleWorld
          = ((false, DownloadMsg.failedToDownload unparseableURL err),
              { fs := exampleWorld.fs,
                trace := exampleWorld.trace ++ [Event.stat (exampleLib.pathJoin "PDFs" ""),
                  Event.httpGet unparseableURL] })) :=
  ⟨rfl, C9_downloadPDF_unparseable_url_goes_on exampleLib exampleSys unparseableURL "PDFs"
    exampleWorld rfl⟩

/-- C9, counterexample to the claim as written: for the URL `http://[::1/x.pdf`, which does not
parse, `downloadPDF` performs the existence check on the derived path `PDFs` and calls the GET;
the outcome it returns is the `failed to download` of the GET step. -/
theorem C9_downloadPDF_unparseable_url_checks_and_gets :
    exampleLib.urlParse unparseableURL = none ∧
    (downloadPDF exampleLib exampleSys unparseableURL "PDFs" exampleWorld).1
      = (false, DownloadMsg.failedToDownload unparseableURL "parse error: missing ] in host") ∧
    (downloadPDF exampleLib exampleSys unparseableURL "PDFs" exampleWorld).2.trace
      = [Event.stat "PDFs", Event.httpGet unparseableURL] := by
  decide

/-- C10, the code at the failing input: when the GET returns an error and no response,
`getDataFromURL` logs the error and goes on to `response.StatusCode`, a nil pointer
dereference; the call does not complete. Nothing is written. -/
theorem C10_getDataFromURL_get_error_dereferences_nil (sys : Sys) (uri fileName : String)
    (w : World) (err : String) (hget : sys.get uri = GetResult.error err none) :
    (getDataFromURL sys uri fileName w).1 = GetDataEnd.nilPointerDereference ∧
    (getDataFromURL sys uri fileName w).2.fs = w.fs ∧
    (getDataFromURL sys uri fileName w).2.trace = w.trace ++ [Event.httpGet uri] := by
  unfold getDataFromURL httpGet
  rw [hget]
  exact ⟨rfl, rfl, rfl⟩

/-- C10, the failing input: the seed page of `main` with the connection refused. -/
theorem C10_getDataFromURL_get_error_dereferences_nil_witness :
    exampleSys.get seedURL = GetResult.error "dial tcp: connection refused" none ∧
    (getDataFromURL exampleSys seedURL "sds.html" exampleWorld).1
      = GetDataEnd.nilPointerDereference ∧
    (getDataFromURL exampleSys seedURL "sds.html" exampleWorld).2.fs = exampleWorld.fs ∧
    (getDataFromURL exampleSys seedURL "sds.html" exampleWorld).2.trace
      = exampleWorld.trace ++ [Event.httpGet seedURL] :=
  ⟨rfl, C10_getDataFromURL_get_error_dereferences_nil exampleSys seedURL "sds.html" exampleWorld
    "dial tcp: connection refused" rfl⟩

end LabAlley
